import Mathlib

/-!
Verification of the MinerU MCP server (`src/mineru_mcp/server.py`).

The Python module is shallowly embedded below.  Pure helpers
(`auto_configure_params`, `build_page_ranges`, the chunk-count arithmetic of
`split_large_pdf`) are translated directly.  Functions that talk to the
network (`requests.head`, the MinerU API, `curl`) are modelled by passing the
observable outcome of each external call as an explicit argument (for example
`HeadOutcome` stands for the result of the `requests.head` probe inside
`FileValidator.validate_url`), so every definition stays executable and the
control flow of the source is reproduced verbatim.  Error-message strings
produced by f-strings with numeric formatting are abstracted into the
`VError` inductive; the report strings of the `convert_to_markdown`
orchestrator, which the claims reason about, are reproduced literally.
-/

/-! ## Constants (server.py lines 57-60) -/

def MAX_FILE_SIZE_BYTES : Nat := 200 * 1024 * 1024

def MAX_PAGES : Nat := 600

def SPLIT_CHUNK_SIZE_MB : Nat := 180

/-- Supported file formats, extension paired with MIME type
(server.py lines 45-55). -/
def SUPPORTED_FORMATS : List (String × String) :=
  [ (".pdf", "application/pdf"),
    (".doc", "application/msword"),
    (".docx", "application/vnd.openxmlformats-officedocument.wordprocessingml.document"),
    (".ppt", "application/vnd.ms-powerpoint"),
    (".pptx", "application/vnd.openxmlformats-officedocument.presentationml.presentation"),
    (".png", "image/png"),
    (".jpg", "image/jpeg"),
    (".jpeg", "image/jpeg"),
    (".html", "text/html") ]

/-- `ext in SUPPORTED_FORMATS` membership test on the keys. -/
def isSupportedExt (e : String) : Bool :=
  SUPPORTED_FORMATS.any (fun p => p.1 == e)

/-- Ceiling division on naturals, the `(a + b - 1) // b` idiom of the
source and of the specification formulas `ceil(S/T)`, `ceil(N/C)`. -/
def ceilDiv (a b : Nat) : Nat := (a + b - 1) / b

/-- Python's `str.lower()` restricted to ASCII, which covers every
extension string the source lowercases. -/
def strLower (s : String) : String := ⟨s.data.map Char.toLower⟩

/-! ## split_large_pdf chunk-count arithmetic (server.py lines 302-315)

`file_size_mb = os.path.getsize(file_path) / (1024 * 1024)` followed by
`int(file_size_mb / SPLIT_CHUNK_SIZE_MB) + 1` truncates the exact quotient,
so on a byte count `n` it computes `n / (180 * 2^20) + 1` with flooring
division; we keep sizes in bytes to stay exact. -/

def chunksBySize (sizeBytes : Nat) : Nat :=
  sizeBytes / (SPLIT_CHUNK_SIZE_MB * 1024 * 1024) + 1

def chunksByPages (totalPages : Nat) : Nat :=
  (totalPages + MAX_PAGES - 1) / MAX_PAGES

def chunkCount (sizeBytes totalPages : Nat) : Nat :=
  max (chunksBySize sizeBytes) (chunksByPages totalPages)

def pagesPerChunk (sizeBytes totalPages : Nat) : Nat :=
  (totalPages + chunkCount sizeBytes totalPages - 1) / chunkCount sizeBytes totalPages

/-! ## The page loop of split_large_pdf (server.py lines 321-337)

Each produced chunk `i` receives the half-open page interval
`[i * pages_per_chunk, min ((i+1) * pages_per_chunk) total_pages)`
(`PdfWriter` receives `range(start_page, end_page)`).  The `for i in
range(chunk_count)` loop with its `break` is rendered with `fuel` equal to
the remaining iteration budget. -/

def chunkRangesAux (ppc totalPages : Nat) : Nat → Nat → List (Nat × Nat)
  | 0, _ => []
  | fuel + 1, i =>
    let start := i * ppc
    if start ≥ totalPages then []
    else (start, min ((i + 1) * ppc) totalPages) :: chunkRangesAux ppc totalPages fuel (i + 1)

/-- The page ranges of the chunk files returned by `split_large_pdf`: for
`chunk_count ≤ 1` the original document (all pages) is returned unsplit. -/
def splitLargePdfRanges (sizeBytes totalPages : Nat) : List (Nat × Nat) :=
  let cc := chunkCount sizeBytes totalPages
  if cc ≤ 1 then [(0, totalPages)]
  else chunkRangesAux (pagesPerChunk sizeBytes totalPages) totalPages cc 0

/-! ## build_page_ranges (server.py lines 340-346) -/

/-- The `for start in range(0, total_pages, MAX_PAGES)` loop, with `fuel`
bounding the number of remaining iterations; `buildPageRangePairs` supplies
enough fuel for the loop to run to completion. -/
def pageRangeLoop (totalPages : Nat) : Nat → Nat → List (Nat × Nat)
  | 0, _ => []
  | fuel + 1, start =>
    if start < totalPages then
      (start, min (start + MAX_PAGES - 1) (totalPages - 1)) ::
        pageRangeLoop totalPages fuel (start + MAX_PAGES)
    else []

def buildPageRangePairs (totalPages : Nat) : List (Nat × Nat) :=
  pageRangeLoop totalPages (totalPages + 1) 0

/-- `build_page_ranges` proper returns the `f"{start}-{end}"` strings. -/
def build_page_ranges (totalPages : Nat) : List String :=
  (buildPageRangePairs totalPages).map (fun r => toString r.1 ++ "-" ++ toString r.2)

/-! ## auto_configure_params (server.py lines 259-287) -/

structure ApiParams where
  model_version : String
  is_ocr : Bool
  enable_formula : Bool
  enable_table : Bool
deriving DecidableEq

def auto_configure_params (extension : Option String)
    (model_version : String := "vlm") (is_ocr : Bool := false)
    (enable_formula : Bool := true) (enable_table : Bool := true) : ApiParams :=
  match extension with
  | none => ⟨model_version, is_ocr, enable_formula, enable_table⟩
  | some e =>
    let ext := strLower e
    if ext = ".html" then
      ⟨"MinerU-HTML", is_ocr, enable_formula, enable_table⟩
    else if ext = ".png" ∨ ext = ".jpg" ∨ ext = ".jpeg" then
      ⟨model_version, true, enable_formula, enable_table⟩
    else
      ⟨model_version, is_ocr, enable_formula, enable_table⟩

/-! ## FileValidator (server.py lines 128-256)

`ValidationResult` mirrors the result dict; validation error messages are
abstracted into constructors carrying the data that the corresponding
f-string interpolates. -/

inductive VError where
  | fileNotFound (path : String)
  | unsupportedFormat (ext : String)
  | emptyFile
  | oversizeUrl (sizeBytes : Nat)
deriving DecidableEq

structure ValidationResult where
  valid : Bool
  error : Option VError
  extension : Option String
  file_size : Nat
  page_count : Option Nat
  needs_splitting : Bool
  use_page_ranges : Bool
deriving DecidableEq

def emptyValidation : ValidationResult :=
  { valid := true, error := none, extension := none, file_size := 0,
    page_count := none, needs_splitting := false, use_page_ranges := false }

/-- `FileValidator.validate_local_file` (lines 131-177).  The local
filesystem facts it reads (`os.path.isfile`, `Path(...).suffix`,
`os.path.getsize`, `_get_page_count`) are passed in as arguments. -/
def validate_local_file (isFile : Bool) (path suffix : String)
    (size : Nat) (pageCount : Option Nat) : ValidationResult :=
  if !isFile then
    { emptyValidation with valid := false, error := some (.fileNotFound path) }
  else
    let ext := strLower suffix
    if !isSupportedExt ext then
      { emptyValidation with
        extension := some ext,
        valid := false, error := some (.unsupportedFormat ext) }
    else if size = 0 then
      { emptyValidation with
        extension := some ext, file_size := size,
        valid := false, error := some .emptyFile }
    else
      { emptyValidation with
        extension := some ext, file_size := size,
        page_count := pageCount,
        needs_splitting := decide (ext = ".pdf") && decide (MAX_FILE_SIZE_BYTES < size),
        use_page_ranges := decide (ext = ".pdf") && !decide (MAX_FILE_SIZE_BYTES < size) &&
          (match pageCount with
           | some pc => decide (MAX_PAGES < pc)
           | none => false) }

/-- `FileValidator._guess_format_from_content_type` (lines 249-256). -/
def guessFormatFromContentType (contentType : String) : Option String :=
  let ct := (((strLower contentType).splitOn ";").headD "").trim
  (SUPPORTED_FORMATS.find? (fun p => p.2 == ct)).map Prod.fst

/-- Outcome of the `requests.head` probe inside `validate_url`:
either the raised `requests.RequestException`, or the response headers
(`Content-Length` parsed when present, plus `Content-Type`). -/
inductive HeadOutcome where
  | reqError
  | ok (contentLength : Option Nat) (contentType : String)
deriving DecidableEq

/-- Trailing `ext is not None and ext not in SUPPORTED_FORMATS` check of
`validate_url` (lines 214-219). -/
def finishUrlCheck (ext : Option String) (r : ValidationResult) : ValidationResult :=
  match ext with
  | some e =>
    if !isSupportedExt e then
      { r with extension := some e, valid := false, error := some (.unsupportedFormat e) }
    else
      { r with extension := some e }
  | none => { r with extension := none }

/-- `FileValidator.validate_url` (lines 179-221).  `extGuess` stands for
`_guess_format_from_url(url)`; a `RequestException` from the HEAD probe is
swallowed by the bare `except ... pass`, leaving `file_size = 0`. -/
def validate_url_core (extGuess : Option String) (head : HeadOutcome) : ValidationResult :=
  let base := { emptyValidation with extension := extGuess }
  match head with
  | .reqError => finishUrlCheck extGuess base
  | .ok contentLength contentType =>
    let fs := contentLength.getD 0
    let r := { base with file_size := fs }
    if contentLength.isSome ∧ MAX_FILE_SIZE_BYTES < fs then
      { r with valid := false, error := some (.oversizeUrl fs) }
    else
      let ext := match extGuess with
        | none => guessFormatFromContentType contentType
        | some e => some e
      finishUrlCheck ext r

/-! ## Tool dispatch front ends (handle_call_tool, server.py lines 536-691)

The handlers first validate, and return the `Validation error: ...` text
without reaching any submission call when validation fails; the outcome
inductives below make the reached operation explicit. -/

inductive UrlToolOutcome where
  | validationError (err : Option VError)
  | taskSubmitted (url : String) (params : ApiParams)
deriving DecidableEq

/-- `create_parse_task` URL branch (lines 555-563). -/
def create_parse_task_url (url : String) (extGuess : Option String)
    (head : HeadOutcome) (mv : String) (ocr ef et : Bool) : UrlToolOutcome :=
  let v := validate_url_core extGuess head
  if !v.valid then .validationError v.error
  else .taskSubmitted url (auto_configure_params v.extension mv ocr ef et)

inductive ConvertUrlStart where
  | validationError (err : Option VError)
  | taskCreateAttempt (url : String) (params : ApiParams)
deriving DecidableEq

/-- Validation gate of the `convert_to_markdown` URL flow (lines 677-691,
903-906): `auto_configure_params` is called with only the extension and the
caller's `model_version`, the remaining parameters at their defaults. -/
def convert_to_markdown_url_start (url : String) (extGuess : Option String)
    (head : HeadOutcome) (mv : String) : ConvertUrlStart :=
  let v := validate_url_core extGuess head
  if !v.valid then .validationError v.error
  else .taskCreateAttempt url (auto_configure_params v.extension mv)

inductive LocalStart where
  | validationError (err : Option VError)
  | splitFlow
  | pageRangeFlow
  | singleUpload (params : ApiParams)
deriving DecidableEq

/-- `create_parse_task` local branch dispatch (lines 564-629): validation
first, then splitting / page ranges / direct upload. -/
def create_parse_task_local (isFile : Bool) (path suffix : String)
    (size : Nat) (pageCount : Option Nat)
    (mv : String) (ocr ef et : Bool) : LocalStart :=
  let v := validate_local_file isFile path suffix size pageCount
  if !v.valid then .validationError v.error
  else if v.needs_splitting then .splitFlow
  else if v.use_page_ranges then .pageRangeFlow
  else .singleUpload (auto_configure_params v.extension mv ocr ef et)

/-! ## get_task_status dispatch (server.py lines 636-646)

Python truthiness: `not task_id` is true both for an absent argument and for
an empty string. -/

inductive StatusQuery where
  | task (id : String)
  | batch (id : String)
deriving DecidableEq

def optTruthy : Option String → Bool
  | none => false
  | some s => !s.isEmpty

def get_task_status_dispatch (taskId batchId : Option String) :
    Except String StatusQuery :=
  if !optTruthy taskId && !optTruthy batchId then
    .error "task_id or batch_id is required"
  else if optTruthy taskId then
    .ok (.task (taskId.getD ""))
  else
    .ok (.batch (batchId.getD ""))

/-! # Theorems -/

/-! ## Claim C1 -/

/-- Claim C1 counterexample: at S = 360 MiB (an exact multiple of the
180 MiB target) and N = 1 page, `split_large_pdf` computes
`int(360/180) + 1 = 3` chunks while the claimed formula
`max(ceil(S/T), ceil(N/C))` gives 2, so the claim as stated is false. -/
theorem chunk_count_claim_false :
    chunkCount (360 * 1048576) 1 ≠ max (ceilDiv 360 180) (ceilDiv 1 600) := by
  decide

/-- Claim C1 (amended): for a file of S MiB and N pages the chunk count
computed by `split_large_pdf` equals
`max(floor(S/180) + 1, ceil(N/600))` — flooring division plus one on the
size constraint, ceiling division on the page constraint. -/
theorem chunk_count_formula (S N : Nat) :
    chunkCount (S * 1048576) N = max (S / 180 + 1) (ceilDiv N 600) := by
  have h : S * 1048576 / (SPLIT_CHUNK_SIZE_MB * 1024 * 1024) = S / 180 := by
    rw [show SPLIT_CHUNK_SIZE_MB * 1024 * 1024 = 180 * 1048576 from by
      norm_num [SPLIT_CHUNK_SIZE_MB]]
    exact Nat.mul_div_mul_right S 180 (by norm_num)
  unfold chunkCount chunksBySize chunksByPages ceilDiv MAX_PAGES
  rw [h]

/-! ## Claim C6 -/

/-- Claim C6: `auto_configure_params` forces OCR on for the raster-image
extensions regardless of the caller's `is_ocr`, forces the model to
`MinerU-HTML` for `.html` regardless of the caller's `model_version`, passes
every other extension's parameters through unchanged, and its declared
defaults are OCR off with formula and table recognition on. -/
theorem auto_configure_params_spec (e mv : String) (ocr ef et : Bool) :
    (strLower e = ".png" ∨ strLower e = ".jpg" ∨ strLower e = ".jpeg" →
      auto_configure_params (some e) mv ocr ef et = ⟨mv, true, ef, et⟩)
    ∧ (strLower e = ".html" →
      auto_configure_params (some e) mv ocr ef et = ⟨"MinerU-HTML", ocr, ef, et⟩)
    ∧ (strLower e ≠ ".html" → strLower e ≠ ".png" → strLower e ≠ ".jpg" →
        strLower e ≠ ".jpeg" →
      auto_configure_params (some e) mv ocr ef et = ⟨mv, ocr, ef, et⟩)
    ∧ auto_configure_params none mv ocr ef et = ⟨mv, ocr, ef, et⟩
    ∧ auto_configure_params (some e) = auto_configure_params (some e) "vlm" false true true := by
  refine ⟨?_, ?_, ?_, rfl, rfl⟩
  · rintro (h | h | h) <;> simp [auto_configure_params, h]
  · intro h
    simp [auto_configure_params, h]
  · intro h1 h2 h3 h4
    simp [auto_configure_params, h1, h2, h3, h4]

/-- Witness for C6 at concrete inputs: a `.png` upload with OCR requested
off still comes back with OCR on. -/
theorem auto_configure_params_spec_witness :
    auto_configure_params (some ".png") "vlm" false true true =
      ⟨"vlm", true, true, true⟩ :=
  (auto_configure_params_spec ".png" "vlm" false true true).1 (Or.inl (by decide))

/-! ## Claim C10 -/

/-- Claim C10: when `get_task_status` receives both a (non-empty) `task_id`
and a `batch_id` it queries the single-task endpoint with `task_id` and the
`batch_id` value is ignored entirely; the `task_id or batch_id is required`
error is raised exactly when both identifiers are absent (falsy). -/
theorem get_task_status_prefers_task (t b : String) (ht : t.isEmpty = false) :
    get_task_status_dispatch (some t) (some b) = .ok (.task t)
    ∧ (∀ b2 : Option String, get_task_status_dispatch (some t) b2 = .ok (.task t))
    ∧ (∀ t2 b2 : Option String,
        get_task_status_dispatch t2 b2 = .error "task_id or batch_id is required"
          ↔ optTruthy t2 = false ∧ optTruthy b2 = false) := by
  refine ⟨?_, ?_, ?_⟩
  · simp [get_task_status_dispatch, optTruthy, ht]
  · intro b2
    simp [get_task_status_dispatch, optTruthy, ht]
  · intro t2 b2
    constructor
    · intro h
      by_contra hc
      rw [get_task_status_dispatch] at h
      rcases ht2 : optTruthy t2 <;> rcases hb2 : optTruthy b2 <;>
        simp [ht2, hb2] at h hc
    · rintro ⟨h1, h2⟩
      simp [get_task_status_dispatch, h1, h2]

/-- Witness for C10: with `task_id = "T1"` and `batch_id = "B1"` supplied
together, the single-task endpoint is queried with `T1`. -/
theorem get_task_status_prefers_task_witness :
    get_task_status_dispatch (some "T1") (some "B1") = .ok (.task "T1") :=
  (get_task_status_prefers_task "T1" "B1" (by decide)).1

/-! ## Claim C7 -/

/-- Claim C7: when the HEAD probe reports a Content-Length above the
200 MiB ceiling, `validate_url` marks the reference invalid with the
oversize error, and both tool front ends (`create_parse_task` and
`convert_to_markdown`) return that validation error without reaching the
task-submission call. -/
theorem url_oversize_rejected (url : String) (extGuess : Option String)
    (L : Nat) (ct mv : String) (ocr ef et : Bool)
    (hL : MAX_FILE_SIZE_BYTES < L) :
    (validate_url_core extGuess (.ok (some L) ct)).valid = false
    ∧ (validate_url_core extGuess (.ok (some L) ct)).error = some (.oversizeUrl L)
    ∧ create_parse_task_url url extGuess (.ok (some L) ct) mv ocr ef et
        = .validationError (some (.oversizeUrl L))
    ∧ convert_to_markdown_url_start url extGuess (.ok (some L) ct) mv
        = .validationError (some (.oversizeUrl L)) := by
  have hv : validate_url_core extGuess (.ok (some L) ct) =
      { emptyValidation with
        extension := extGuess, file_size := L,
        valid := false, error := some (.oversizeUrl L) } := by
    simp [validate_url_core, hL]
  refine ⟨?_, ?_, ?_, ?_⟩
  · rw [hv]
  · rw [hv]
  · simp [create_parse_task_url, hv]
  · simp [convert_to_markdown_url_start, hv]

/-- Witness for C7: the spec scenario, a HEAD probe reporting 500 MiB. -/
theorem url_oversize_rejected_witness :
    create_parse_task_url "https://x/a.pdf" (some ".pdf")
        (.ok (some (500 * 1048576)) "application/pdf") "vlm" false true true
      = .validationError (some (.oversizeUrl (500 * 1048576))) :=
  (url_oversize_rejected "https://x/a.pdf" (some ".pdf") (500 * 1048576)
    "application/pdf" "vlm" false true true (by decide)).2.2.1

/-! ## Claim C8 -/

/-- Claim C8: a local file with a supported extension and size exactly 0
bytes is rejected by `validate_local_file` with the empty-file error, and
the tool handler returns the validation error without reaching any
submission.  `validate_local_file` itself reads only local file metadata,
so no network call can precede this rejection. -/
theorem empty_local_file_rejected (path suffix : String) (pc : Option Nat)
    (mv : String) (ocr ef et : Bool)
    (hs : isSupportedExt (strLower suffix) = true) :
    validate_local_file true path suffix 0 pc =
      { emptyValidation with
        extension := some (strLower suffix), file_size := 0,
        valid := false, error := some .emptyFile }
    ∧ create_parse_task_local true path suffix 0 pc mv ocr ef et
        = .validationError (some .emptyFile) := by
  have hv : validate_local_file true path suffix 0 pc =
      { emptyValidation with
        extension := some (strLower suffix), file_size := 0,
        valid := false, error := some .emptyFile } := by
    simp [validate_local_file, hs]
  exact ⟨hv, by simp [create_parse_task_local, hv]⟩

/-- Witness for C8 at a concrete input: an empty `.pdf` file. -/
theorem empty_local_file_rejected_witness :
    create_parse_task_local true "/tmp/a.pdf" ".pdf" 0 none "vlm" false true true
      = .validationError (some .emptyFile) :=
  (empty_local_file_rejected "/tmp/a.pdf" ".pdf" none "vlm" false true true
    (by decide)).2

/-! ## Claim C9 -/

/-- Claim C9: when the HEAD probe raises a transport error, `validate_url`
swallows the exception (`except requests.RequestException: pass`) and, for a
URL whose path yields a supported extension, returns a valid result with
`file_size = 0` and that URL-derived extension; the byte-ceiling check never
runs, so the handler proceeds to submit the task regardless of the
document's true size. -/
theorem url_head_error_passes_validation (url e mv : String)
    (ocr ef et : Bool) (hs : isSupportedExt e = true) :
    validate_url_core (some e) .reqError =
      { emptyValidation with extension := some e }
    ∧ create_parse_task_url url (some e) .reqError mv ocr ef et
        = .taskSubmitted url (auto_configure_params (some e) mv ocr ef et) := by
  have hv : validate_url_core (some e) .reqError =
      { emptyValidation with extension := some e } := by
    simp [validate_url_core, finishUrlCheck, hs]
  refine ⟨hv, ?_⟩
  simp [create_parse_task_url, hv, emptyValidation]

/-- Witness for C9: a `.pdf` URL whose HEAD probe fails is submitted with
`file_size` recorded as 0. -/
theorem url_head_error_passes_validation_witness :
    create_parse_task_url "https://x/big.pdf" (some ".pdf") .reqError
        "vlm" false true true
      = .taskSubmitted "https://x/big.pdf"
          (auto_configure_params (some ".pdf") "vlm" false true true) :=
  (url_head_error_passes_validation "https://x/big.pdf" ".pdf" "vlm"
    false true true (by decide)).2

/-! ## Arithmetic helpers for the decomposition proofs -/

theorem ceilDiv_le_iff {b : Nat} (hb : 0 < b) (a m : Nat) :
    ceilDiv a b ≤ m ↔ a ≤ m * b := by
  unfold ceilDiv
  rw [Nat.div_le_iff_le_mul_add_pred hb, Nat.mul_comm m b]
  omega

theorem le_ceilDiv_mul {b : Nat} (hb : 0 < b) (a : Nat) :
    a ≤ ceilDiv a b * b :=
  (ceilDiv_le_iff hb a (ceilDiv a b)).mp le_rfl

theorem ceilDiv_pos {b : Nat} (hb : 0 < b) {a : Nat} (ha : 0 < a) :
    0 < ceilDiv a b := by
  by_contra h
  push_neg at h
  have h0 : ceilDiv a b ≤ 0 := by omega
  have := (ceilDiv_le_iff hb a 0).mp h0
  omega

theorem ceilDiv_zero_left (b : Nat) : ceilDiv 0 b = 0 := by
  unfold ceilDiv
  rcases Nat.eq_zero_or_pos b with h | h
  · subst h; rfl
  · exact Nat.div_eq_of_lt (by omega)

theorem ceilDiv_succ_step {b : Nat} (hb : 0 < b) {M : Nat} (hM : 0 < M) :
    ceilDiv M b = ceilDiv (M - b) b + 1 := by
  unfold ceilDiv
  rcases le_or_lt M b with h | h
  · have e0 : M - b = 0 := by omega
    rw [e0, show (0 : Nat) + b - 1 = b - 1 from by omega,
      Nat.div_eq_of_lt (show b - 1 < b from by omega),
      show M + b - 1 = (M - 1) + b from by omega, Nat.add_div_right _ hb,
      Nat.div_eq_of_lt (show M - 1 < b from by omega)]
  · rw [show M + b - 1 = (M - 1) + b from by omega, Nat.add_div_right _ hb,
      show M - b + b - 1 = (M - b - 1) + b from by omega, Nat.add_div_right _ hb,
      show M - 1 = (M - b - 1) + b from by omega, Nat.add_div_right _ hb]

/-- Fixpoint property behind the even page distribution of
`split_large_pdf`: with `p = ceil(N/cc)` pages per chunk, the number of
produced chunks is `k = ceil(N/p)`, and then `ceil(N/k) = p` again. -/
theorem ceilDiv_ceilDiv_ceilDiv {N c : Nat} (hN : 0 < N) (hc : 0 < c) :
    ceilDiv N (ceilDiv N (ceilDiv N c)) = ceilDiv N c := by
  set p := ceilDiv N c with hp_def
  have hp : 0 < p := ceilDiv_pos hc hN
  set k := ceilDiv N p with hk_def
  have hk : 0 < k := ceilDiv_pos hp hN
  have hNkp : N ≤ k * p := le_ceilDiv_mul hp N
  have hupper : ceilDiv N k ≤ p := by
    rw [ceilDiv_le_iff hk N p, Nat.mul_comm p k]
    exact hNkp
  have hkc : k ≤ c := by
    rw [hk_def, ceilDiv_le_iff hp N c, Nat.mul_comm c p]
    have := le_ceilDiv_mul hc N
    rw [← hp_def] at this
    exact this
  have hlower : p ≤ ceilDiv N k := by
    by_contra hcon
    push_neg at hcon
    have h1 : ceilDiv N k ≤ p - 1 := by omega
    have h2 : N ≤ (p - 1) * k := (ceilDiv_le_iff hk N (p - 1)).mp h1
    have h3 : (p - 1) * k ≤ (p - 1) * c := Nat.mul_le_mul_left _ hkc
    have h4 : ceilDiv N c ≤ p - 1 :=
      (ceilDiv_le_iff hc N (p - 1)).mpr (le_trans h2 h3)
    rw [← hp_def] at h4
    omega
  exact Nat.le_antisymm hupper hlower

theorem range'_glue (s m t : Nat) (h : m ≤ t) :
    List.range' s m ++ List.range' (s + m) (t - m) = List.range' s t := by
  have h2 := List.range'_append s m (t - m) 1
  rw [Nat.one_mul, Nat.sub_add_cancel h] at h2
  exact h2

/-! ## Lemmas about the build_page_ranges loop -/

theorem pageRangeLoop_nil {N start : Nat} (h : N ≤ start) (fuel : Nat) :
    pageRangeLoop N fuel start = [] := by
  cases fuel with
  | zero => rfl
  | succ n => simp [pageRangeLoop, show ¬(start < N) from by omega]

theorem pageRangeLoop_flatten (N : Nat) :
    ∀ fuel start, N ≤ start + fuel * 600 →
      ((pageRangeLoop N fuel start).map
          (fun r => List.range' r.1 (r.2 + 1 - r.1))).flatten
        = List.range' start (N - start) := by
  intro fuel
  induction fuel with
  | zero =>
    intro start hcond
    rw [show N - start = 0 from by omega]
    simp [pageRangeLoop]
  | succ n ih =>
    intro start hcond
    have hM : MAX_PAGES = 600 := rfl
    by_cases h : start < N
    · simp only [pageRangeLoop, if_pos h, List.map_cons, List.flatten_cons, hM]
      rw [ih (start + 600) (by omega)]
      rcases le_or_lt (start + 600) N with hc | hc
      · rw [show min (start + 600 - 1) (N - 1) = start + 599 from by omega]
        rw [show start + 599 + 1 - start = 600 from by omega]
        rw [show N - (start + 600) = (N - start) - 600 from by omega]
        exact range'_glue start 600 (N - start) (by omega)
      · rw [show min (start + 600 - 1) (N - 1) = N - 1 from by omega]
        rw [show N - 1 + 1 - start = N - start from by omega]
        rw [show N - (start + 600) = 0 from by omega]
        simp
    · rw [pageRangeLoop_nil (by omega), show N - start = 0 from by omega]
      simp

theorem pageRangeLoop_length (N : Nat) :
    ∀ fuel start, N ≤ start + fuel * 600 →
      (pageRangeLoop N fuel start).length = ceilDiv (N - start) 600 := by
  intro fuel
  induction fuel with
  | zero =>
    intro start hcond
    rw [show N - start = 0 from by omega, ceilDiv_zero_left]
    rfl
  | succ n ih =>
    intro start hcond
    have hM : MAX_PAGES = 600 := rfl
    by_cases h : start < N
    · simp only [pageRangeLoop, if_pos h, List.length_cons, hM]
      rw [ih (start + 600) (by omega)]
      rw [ceilDiv_succ_step (show 0 < 600 from by omega)
        (show 0 < N - start from by omega)]
      have e : N - (start + 600) = N - start - 600 := by omega
      rw [e]
    · rw [pageRangeLoop_nil (by omega), show N - start = 0 from by omega,
        ceilDiv_zero_left]
      rfl

theorem pageRangeLoop_elems (N : Nat) :
    ∀ fuel j i r, (pageRangeLoop N fuel (j * 600))[i]? = some r →
      r = ((j + i) * 600, min ((j + i) * 600 + 599) (N - 1)) := by
  intro fuel
  induction fuel with
  | zero => intro j i r hr; simp [pageRangeLoop] at hr
  | succ n ih =>
    intro j i r hr
    have hM : MAX_PAGES = 600 := rfl
    by_cases h : j * 600 < N
    · simp only [pageRangeLoop, if_pos h, hM] at hr
      cases i with
      | zero =>
        simp only [List.getElem?_cons_zero, Option.some_inj] at hr
        rw [← hr, show j * 600 + 600 - 1 = j * 600 + 599 from by omega]
        simp
      | succ m =>
        simp only [List.getElem?_cons_succ] at hr
        rw [show j * 600 + 600 = (j + 1) * 600 from by omega] at hr
        have hrec := ih (j + 1) m r hr
        rw [hrec, show j + 1 + m = j + (m + 1) from by omega]
    · rw [pageRangeLoop_nil (by omega)] at hr
      simp at hr

theorem pageRangeLoop_getLastD (N : Nat) :
    ∀ fuel start a, N ≤ start + fuel * 600 → start < N →
      ∃ s, (pageRangeLoop N fuel start).getLastD a = (s, N - 1) := by
  intro fuel
  induction fuel with
  | zero => intro start a hcond hlt; omega
  | succ n ih =>
    intro start a hcond hlt
    have hM : MAX_PAGES = 600 := rfl
    simp only [pageRangeLoop, if_pos hlt, List.getLastD_cons, hM]
    by_cases hc : start + 600 < N
    · exact ih (start + 600) _ (by omega) hc
    · rw [pageRangeLoop_nil (show N ≤ start + 600 from by omega)]
      refine ⟨start, ?_⟩
      simp only [List.getLastD_nil]
      rw [show min (start + 600 - 1) (N - 1) = N - 1 from by omega]

/-! ## Claim C2 -/

/-- Claim C2: for N ≥ 1 total pages and page ceiling 600,
`build_page_ranges` produces the ranges `[0,599], [600,1199], ...` clipped
to `N-1` — `ceil(N/600)` of them, the i-th starting at `i*600` — whose
pages, concatenated in order, are exactly `0, 1, ..., N-1` (each page
covered once, ranges ascending, contiguous, non-overlapping), and the last
range ends at `N-1`. -/
theorem build_page_ranges_spec (N : Nat) (h : 1 ≤ N) :
    ((buildPageRangePairs N).map
        (fun r => List.range' r.1 (r.2 + 1 - r.1))).flatten = List.range N
    ∧ (buildPageRangePairs N).length = ceilDiv N 600
    ∧ (∀ i r, (buildPageRangePairs N)[i]? = some r →
        r = (i * 600, min (i * 600 + 599) (N - 1)))
    ∧ (∃ s, (buildPageRangePairs N).getLast? = some (s, N - 1)) := by
  have hM : MAX_PAGES = 600 := rfl
  have hfuel : N ≤ 0 + (N + 1) * 600 := by omega
  refine ⟨?_, ?_, ?_, ?_⟩
  · have := pageRangeLoop_flatten N (N + 1) 0 hfuel
    rw [Nat.sub_zero] at this
    rw [buildPageRangePairs, this, List.range_eq_range']
  · have := pageRangeLoop_length N (N + 1) 0 hfuel
    rw [Nat.sub_zero] at this
    rw [buildPageRangePairs, this]
  · intro i r hr
    rw [buildPageRangePairs, show (0 : Nat) = 0 * 600 from by omega] at hr
    have := pageRangeLoop_elems N (N + 1) 0 i r hr
    rw [this, Nat.zero_add]
  · have hd := pageRangeLoop_getLastD N (N + 1) 0 ((0, 0) : Nat × Nat) hfuel (by omega)
    obtain ⟨s, hs⟩ := hd
    refine ⟨s, ?_⟩
    rw [buildPageRangePairs]
    have hne : pageRangeLoop N (N + 1) 0 ≠ [] := by
      simp [pageRangeLoop, show (0 : Nat) < N from by omega]
    rw [List.getLastD_eq_getLast?] at hs
    cases hlast : (pageRangeLoop N (N + 1) 0).getLast? with
    | none => exact absurd (List.getLast?_eq_none_iff.mp hlast) hne
    | some x => rw [hlast] at hs; simpa using hs

/-- Witness for C2 at N = 650 (the spec scenario `0-599`, `600-649`). -/
theorem build_page_ranges_spec_witness :
    ((buildPageRangePairs 650).map
        (fun r => List.range' r.1 (r.2 + 1 - r.1))).flatten = List.range 650
    ∧ (buildPageRangePairs 650).length = ceilDiv 650 600
    ∧ (∀ i r, (buildPageRangePairs 650)[i]? = some r →
        r = (i * 600, min (i * 600 + 599) 649))
    ∧ (∃ s, (buildPageRangePairs 650).getLast? = some (s, 649)) :=
  build_page_ranges_spec 650 (by decide)

/-! ## Lemmas about the split_large_pdf page loop -/

theorem chunkRangesAux_nil {ppc N i : Nat} (h : N ≤ i * ppc) (fuel : Nat) :
    chunkRangesAux ppc N fuel i = [] := by
  cases fuel with
  | zero => rfl
  | succ n => simp [chunkRangesAux, show i * ppc ≥ N from h]

theorem chunkRangesAux_flatten {ppc : Nat} (hp : 0 < ppc) (N : Nat) :
    ∀ fuel i, N ≤ (i + fuel) * ppc →
      ((chunkRangesAux ppc N fuel i).map
          (fun r => List.range' r.1 (r.2 - r.1))).flatten
        = List.range' (i * ppc) (N - i * ppc) := by
  intro fuel
  induction fuel with
  | zero =>
    intro i hcond
    rw [Nat.add_zero] at hcond
    rw [show N - i * ppc = 0 from by omega]
    simp [chunkRangesAux]
  | succ n ih =>
    intro i hcond
    have estep : (i + 1) * ppc = i * ppc + ppc := by ring
    have econd : (i + 1 + n) * ppc = (i + (n + 1)) * ppc := by ring
    by_cases h : i * ppc ≥ N
    · rw [chunkRangesAux_nil h, show N - i * ppc = 0 from by omega]
      simp
    · simp only [chunkRangesAux, if_neg h, List.map_cons, List.flatten_cons]
      rw [ih (i + 1) (by rw [econd]; exact hcond)]
      rcases le_or_lt ((i + 1) * ppc) N with hc | hc
      · rw [Nat.min_eq_left hc]
        rw [show (i + 1) * ppc - i * ppc = ppc from by omega]
        rw [show (i + 1) * ppc = i * ppc + ppc from estep]
        rw [show N - (i * ppc + ppc) = (N - i * ppc) - ppc from by omega]
        exact range'_glue (i * ppc) ppc (N - i * ppc) (by omega)
      · rw [Nat.min_eq_right (le_of_lt hc)]
        rw [show N - (i + 1) * ppc = 0 from by omega]
        simp

theorem chunkRangesAux_length {ppc : Nat} (hp : 0 < ppc) (N : Nat) :
    ∀ fuel i, N ≤ (i + fuel) * ppc →
      (chunkRangesAux ppc N fuel i).length = ceilDiv (N - i * ppc) ppc := by
  intro fuel
  induction fuel with
  | zero =>
    intro i hcond
    rw [Nat.add_zero] at hcond
    rw [show N - i * ppc = 0 from by omega, ceilDiv_zero_left]
    rfl
  | succ n ih =>
    intro i hcond
    have estep : (i + 1) * ppc = i * ppc + ppc := by ring
    have econd : (i + 1 + n) * ppc = (i + (n + 1)) * ppc := by ring
    by_cases h : i * ppc ≥ N
    · rw [chunkRangesAux_nil h, show N - i * ppc = 0 from by omega, ceilDiv_zero_left]
      rfl
    · simp only [chunkRangesAux, if_neg h, List.length_cons]
      rw [ih (i + 1) (by rw [econd]; exact hcond)]
      rw [ceilDiv_succ_step hp (show 0 < N - i * ppc from by omega)]
      have e2 : N - (i + 1) * ppc = N - i * ppc - ppc := by omega
      rw [e2]

theorem chunkRangesAux_size_le {ppc N : Nat} :
    ∀ fuel i r, r ∈ chunkRangesAux ppc N fuel i → r.2 - r.1 ≤ ppc := by
  intro fuel
  induction fuel with
  | zero => intro i r hr; simp [chunkRangesAux] at hr
  | succ n ih =>
    intro i r hr
    by_cases h : i * ppc ≥ N
    · rw [chunkRangesAux_nil h] at hr
      simp at hr
    · simp only [chunkRangesAux, if_neg h, List.mem_cons] at hr
      rcases hr with hr | hr
      · have estep : (i + 1) * ppc = i * ppc + ppc := by ring
        rw [hr]
        have : min ((i + 1) * ppc) N ≤ (i + 1) * ppc := Nat.min_le_left _ _
        simp only
        omega
      · exact ih (i + 1) r hr

theorem chunkRangesAux_size_nonfinal {ppc N : Nat} :
    ∀ fuel i j r, (chunkRangesAux ppc N fuel i)[j]? = some r →
      j + 1 < (chunkRangesAux ppc N fuel i).length → r.2 - r.1 = ppc := by
  intro fuel
  induction fuel with
  | zero => intro i j r hr _; simp [chunkRangesAux] at hr
  | succ n ih =>
    intro i j r hr hlen
    by_cases h : i * ppc ≥ N
    · rw [chunkRangesAux_nil h] at hr
      simp at hr
    · simp only [chunkRangesAux, if_neg h] at hr hlen
      cases j with
      | zero =>
        simp only [List.getElem?_cons_zero, Option.some_inj] at hr
        simp only [List.length_cons] at hlen
        have htail : chunkRangesAux ppc N n (i + 1) ≠ [] := by
          intro hnil
          rw [hnil] at hlen
          simp at hlen
        have hlt : (i + 1) * ppc < N := by
          by_contra hge
          exact htail (chunkRangesAux_nil (by omega) n)
        rw [← hr]
        simp only
        rw [Nat.min_eq_left (le_of_lt hlt)]
        have estep : (i + 1) * ppc = i * ppc + ppc := by ring
        omega
      | succ m =>
        simp only [List.getElem?_cons_succ] at hr
        simp only [List.length_cons] at hlen
        exact ih (i + 1) m r hr (by omega)

/-! ## Claim C5 -/

/-- Claim C5: whenever `split_large_pdf` actually splits a document of N
pages into k ≥ 2 chunks, the chunks carry contiguous page ranges in
original order with no gap and no overlap (their pages concatenated are
exactly `0..N-1`, so the assigned pages sum to N), and every chunk receives
at most `ceil(N/k)` pages, each non-final chunk exactly `ceil(N/k)` (only
the final chunk may be shorter). -/
theorem split_large_pdf_ranges_spec (S N : Nat)
    (hk : 2 ≤ (splitLargePdfRanges S N).length) :
    ((splitLargePdfRanges S N).map
        (fun r => List.range' r.1 (r.2 - r.1))).flatten = List.range N
    ∧ (∀ r ∈ splitLargePdfRanges S N,
        r.2 - r.1 ≤ ceilDiv N (splitLargePdfRanges S N).length)
    ∧ (∀ j r, (splitLargePdfRanges S N)[j]? = some r →
        j + 1 < (splitLargePdfRanges S N).length →
        r.2 - r.1 = ceilDiv N (splitLargePdfRanges S N).length) := by
  by_cases hcc : chunkCount S N ≤ 1
  · rw [splitLargePdfRanges] at hk
    simp only [hcc, if_true] at hk
    simp at hk
  · have hsplit : splitLargePdfRanges S N =
        chunkRangesAux (pagesPerChunk S N) N (chunkCount S N) 0 := by
      rw [splitLargePdfRanges]
      simp [hcc]
    have hccpos : 0 < chunkCount S N := by omega
    have hppc_eq : pagesPerChunk S N = ceilDiv N (chunkCount S N) := rfl
    have hN : 0 < N := by
      by_contra hN0
      push_neg at hN0
      have hN0' : N = 0 := by omega
      subst hN0'
      rw [hsplit] at hk
      rw [chunkRangesAux_nil (show (0 : Nat) ≤ 0 * pagesPerChunk S 0 from by omega)] at hk
      simp at hk
    have hp : 0 < pagesPerChunk S N := by
      rw [hppc_eq]
      exact ceilDiv_pos hccpos hN
    have hfuel : N ≤ (0 + chunkCount S N) * pagesPerChunk S N := by
      rw [Nat.zero_add, Nat.mul_comm, hppc_eq]
      exact le_ceilDiv_mul hccpos N
    have hlen : (splitLargePdfRanges S N).length =
        ceilDiv N (pagesPerChunk S N) := by
      rw [hsplit]
      have := chunkRangesAux_length hp N (chunkCount S N) 0 hfuel
      rw [this, Nat.zero_mul, Nat.sub_zero]
    have hfix : ceilDiv N ((splitLargePdfRanges S N).length) = pagesPerChunk S N := by
      rw [hlen, hppc_eq]
      exact ceilDiv_ceilDiv_ceilDiv hN hccpos
    refine ⟨?_, ?_, ?_⟩
    · rw [hsplit]
      have := chunkRangesAux_flatten hp N (chunkCount S N) 0 hfuel
      rw [this, Nat.zero_mul, Nat.sub_zero, List.range_eq_range']
    · intro r hr
      rw [hfix]
      rw [hsplit] at hr
      exact chunkRangesAux_size_le (chunkCount S N) 0 r hr
    · intro j r hr hjlen
      rw [hfix]
      rw [hsplit] at hr
      rw [hsplit] at hjlen
      exact chunkRangesAux_size_nonfinal (chunkCount S N) 0 j r hr hjlen

/-- Witness for C5: the spec scenario, a 250 MiB PDF with 620 pages is
split into 2 chunks of 310 pages each. -/
theorem split_large_pdf_ranges_spec_witness :
    2 ≤ (splitLargePdfRanges (250 * 1048576) 620).length
    ∧ (((splitLargePdfRanges (250 * 1048576) 620).map
        (fun r => List.range' r.1 (r.2 - r.1))).flatten = List.range 620
    ∧ (∀ r ∈ splitLargePdfRanges (250 * 1048576) 620,
        r.2 - r.1 ≤ ceilDiv 620 (splitLargePdfRanges (250 * 1048576) 620).length)
    ∧ (∀ j r, (splitLargePdfRanges (250 * 1048576) 620)[j]? = some r →
        j + 1 < (splitLargePdfRanges (250 * 1048576) 620).length →
        r.2 - r.1 = ceilDiv 620 (splitLargePdfRanges (250 * 1048576) 620).length)) :=
  ⟨by decide, split_large_pdf_ranges_spec (250 * 1048576) 620 (by decide)⟩

/-! ## The convert_to_markdown orchestrator (server.py lines 667-901)

External behaviour is scripted per submission unit: `UploadResp` is the
observable result of `upload_local_file` (an `"error"` key / non-zero
`code`, or a `batch_id`), `PollResp` the result of the n-th
`get_batch_result` call (each constructor carries the `json.dumps` of the
full response as an opaque payload string), `DownloadResp` the result of
`download_file`.  The polling loop `while elapsed < max_wait` advances
`elapsed` by `poll_interval` before each poll, so poll number `j` (0-based)
runs exactly when `j * poll_interval < max_wait`; the loop is rendered with
a fuel argument, with enough fuel supplied for any positive interval. -/

inductive UploadResp where
  | failure (raw : String)
  | success (batchId : String)

inductive PollResp where
  | transportErr (raw : String)
  | noExtract (payload : String)
  | running (payload : String)
  | done (zipUrl : String) (payload : String)
  | failed (errMsg : Option String) (payload : String)

inductive DownloadResp where
  | err (msg : String)
  | okDl

structure ChunkEnv where
  upload : UploadResp
  polls : Nat → PollResp
  download : DownloadResp

def defaultChunkEnv : ChunkEnv :=
  ⟨.failure "", fun _ => .transportErr "", .err ""⟩

inductive PollOutcome where
  | statusError (raw : String)
  | failedState (errMsg : String) (payload : String)
  | doneRes (zipUrl : String)
  | timedOut (lastStatus : Option String)
deriving DecidableEq

/-- One unit's polling loop (lines 723-760 / 792-829 / 857-896): sleep,
bump `elapsed`, fetch status; `"error"` returns at once, an empty
`extract_result` or a non-terminal state continues, `done`/`failed` are
terminal; leaving the loop yields a timeout carrying the last
`status_result` seen (`none` when no poll ran). -/
def pollLoop (polls : Nat → PollResp) (maxWait interval : Nat) :
    Nat → Nat → Option String → PollOutcome
  | 0, _, last => .timedOut last
  | fuel + 1, j, last =>
    if j * interval < maxWait then
      match polls j with
      | .transportErr raw => .statusError raw
      | .noExtract p => pollLoop polls maxWait interval fuel (j + 1) (some p)
      | .running p => pollLoop polls maxWait interval fuel (j + 1) (some p)
      | .done z _ => .doneRes z
      | .failed e p => .failedState (e.getD "Unknown error") p
    else .timedOut last

def pollFrom (polls : Nat → PollResp) (maxWait interval : Nat) : PollOutcome :=
  pollLoop polls maxWait interval (maxWait + 1) 0 none

/-- Per-chunk report of the chunked flow (lines 707-773); each constructor
carries exactly the values the corresponding f-string interpolates
(`idx` is the 1-based `i+1`). -/
inductive ChunkedOutcome where
  | uploadFailed (idx total : Nat) (raw : String)
  | statusError (idx : Nat) (raw : String)
  | chunkFailed (idx : Nat) (errMsg : String)
  | downloadFailed (idx : Nat) (dlErr zipUrl : String)
  | chunkTimeout (idx total : Nat) (batchId : String)
  | completed (outputs : List String)
deriving DecidableEq

/-- `f"{Path(output_path).stem}_part{i+1}{Path(output_path).suffix}"`
(line 744), with the caller's output path split into stem and suffix. -/
def chunkOutName (outStem : String) (idx : Nat) (outSuffix : String) : String :=
  outStem ++ "_part" ++ toString idx ++ outSuffix

/-- Processing of one chunk inside the `for i, chunk_path in
enumerate(chunk_paths)` loop: upload, poll to terminal state, download on
`done`.  `Sum.inr` is the output path of a fully successful chunk;
`Sum.inl` is the report of the early `return`. -/
def processChunk (maxWait interval : Nat) (outStem outSuffix : String)
    (total idx : Nat) (e : ChunkEnv) : ChunkedOutcome ⊕ String :=
  match e.upload with
  | .failure raw => .inl (.uploadFailed idx total raw)
  | .success batchId =>
    match pollFrom e.polls maxWait interval with
    | .statusError raw => .inl (.statusError idx raw)
    | .failedState m _ => .inl (.chunkFailed idx m)
    | .timedOut _ => .inl (.chunkTimeout idx total batchId)
    | .doneRes z =>
      match e.download with
      | .err m => .inl (.downloadFailed idx m z)
      | .okDl => .inr (chunkOutName outStem idx outSuffix)

/-- The chunk loop.  The second component of the result is the list of
artifact files already written to disk by `download_file`; an early return
leaves previously downloaded artifacts in place. -/
def runChunksAux (maxWait interval : Nat) (outStem outSuffix : String)
    (total : Nat) : List ChunkEnv → Nat → List String → ChunkedOutcome × List String
  | [], _, written => (.completed written, written)
  | e :: rest, idx, written =>
    match processChunk maxWait interval outStem outSuffix total idx e with
    | .inl o => (o, written)
    | .inr out =>
      runChunksAux maxWait interval outStem outSuffix total rest (idx + 1)
        (written ++ [out])

def runChunkedConversion (envs : List ChunkEnv) (maxWait interval : Nat)
    (outStem outSuffix : String) : ChunkedOutcome × List String :=
  runChunksAux maxWait interval outStem outSuffix envs.length envs 1 []

/-- The exact report strings of the chunked flow (f-strings of lines
716-772). -/
def renderChunkedOutcome : ChunkedOutcome → String
  | .uploadFailed idx total raw =>
    "Failed to upload chunk " ++ toString idx ++ "/" ++ toString total ++ ":\n" ++ raw
  | .statusError idx raw =>
    "Error checking chunk " ++ toString idx ++ " status:\n" ++ raw
  | .chunkFailed idx m => "Chunk " ++ toString idx ++ " failed: " ++ m
  | .downloadFailed idx m z =>
    "Chunk " ++ toString idx ++ " download failed: " ++ m ++ "\nURL: " ++ z
  | .chunkTimeout idx total b =>
    "Timeout waiting for chunk " ++ toString idx ++ "/" ++ toString total ++
      ".\nBatch ID: " ++ b ++ "\nUse get_task_status to check later."
  | .completed outs =>
    "Conversion completed! File was split into " ++ toString outs.length ++
      " chunks.\n\nResults saved to:\n" ++
      String.intercalate "\n" (outs.map (fun p => "  - " ++ p))

/-- Per-unit report of the page-range flow (lines 776-842), keyed by the
page-range expression `pr`. -/
inductive RangeOutcome where
  | uploadFailed (pr : String) (raw : String)
  | statusError (pr : String) (raw : String)
  | rangeFailed (pr : String) (errMsg : String)
  | downloadFailed (pr : String) (dlErr zipUrl : String)
  | rangeTimeout (pr : String) (batchId : String)
  | completed (outputs : List String)
deriving DecidableEq

/-- `f"{Path(output_path).stem}_pages{pr}{Path(output_path).suffix}"`
(line 813). -/
def rangeOutName (outStem pr outSuffix : String) : String :=
  outStem ++ "_pages" ++ pr ++ outSuffix

def processRange (maxWait interval : Nat) (outStem outSuffix : String)
    (pr : String) (e : ChunkEnv) : RangeOutcome ⊕ String :=
  match e.upload with
  | .failure raw => .inl (.uploadFailed pr raw)
  | .success batchId =>
    match pollFrom e.polls maxWait interval with
    | .statusError raw => .inl (.statusError pr raw)
    | .failedState m _ => .inl (.rangeFailed pr m)
    | .timedOut _ => .inl (.rangeTimeout pr batchId)
    | .doneRes z =>
      match e.download with
      | .err m => .inl (.downloadFailed pr m z)
      | .okDl => .inr (rangeOutName outStem pr outSuffix)

def runRangesAux (maxWait interval : Nat) (outStem outSuffix : String) :
    List (String × ChunkEnv) → List String → RangeOutcome × List String
  | [], written => (.completed written, written)
  | (pr, e) :: rest, written =>
    match processRange maxWait interval outStem outSuffix pr e with
    | .inl o => (o, written)
    | .inr out => runRangesAux maxWait interval outStem outSuffix rest (written ++ [out])

def runRangeConversion (units : List (String × ChunkEnv)) (maxWait interval : Nat)
    (outStem outSuffix : String) : RangeOutcome × List String :=
  runRangesAux maxWait interval outStem outSuffix units []

def defaultRangeUnit : String × ChunkEnv := ("", defaultChunkEnv)

/-- The exact report strings of the page-range flow (f-strings of lines
785-841). -/
def renderRangeOutcome : RangeOutcome → String
  | .uploadFailed pr raw =>
    "Failed to upload page range " ++ pr ++ ":\n" ++ raw
  | .statusError pr raw =>
    "Error checking page range " ++ pr ++ " status:\n" ++ raw
  | .rangeFailed pr m => "Page range " ++ pr ++ " failed: " ++ m
  | .downloadFailed pr m z =>
    "Page range " ++ pr ++ " download failed: " ++ m ++ "\nURL: " ++ z
  | .rangeTimeout pr b =>
    "Timeout waiting for page range " ++ pr ++ ".\nBatch ID: " ++ b ++
      "\nUse get_task_status to check later."
  | .completed outs =>
    "Conversion completed! File was split into " ++ toString outs.length ++
      " page ranges.\n\nResults saved to:\n" ++
      String.intercalate "\n" (outs.map (fun p => "  - " ++ p))

/-- Report of the single-unit local flow (lines 844-901). -/
inductive SingleOutcome where
  | uploadFailed (raw : String)
  | statusError (raw : String)
  | taskFailed (errMsg : String) (payload : String)
  | downloadFailedAfterDone (dlErr zipUrl : String)
  | timedOut (maxWait : Nat) (batchId : String) (lastStatus : Option String)
  | completed (batchId outputPath zipUrl : String)
deriving DecidableEq

def runSingleConversion (e : ChunkEnv) (maxWait interval : Nat)
    (outputPath : String) : SingleOutcome :=
  match e.upload with
  | .failure raw => .uploadFailed raw
  | .success b =>
    match pollFrom e.polls maxWait interval with
    | .statusError raw => .statusError raw
    | .failedState m p => .taskFailed m p
    | .timedOut last => .timedOut maxWait b last
    | .doneRes z =>
      match e.download with
      | .err m => .downloadFailedAfterDone m z
      | .okDl => .completed b outputPath z

/-- `json.dumps(status_result)` where `status_result` is the opaque payload
of the last poll, or Python `None` dumped as `null` when no poll ran. -/
def jsonDumpsOpt (o : Option String) : String := o.getD "null"

/-- The exact report strings of the single-unit local flow (f-strings of
lines 852-900). -/
def renderSingleOutcome : SingleOutcome → String
  | .uploadFailed raw => "Failed to upload file:\n" ++ raw
  | .statusError raw => "Error checking status:\n" ++ raw
  | .taskFailed m p => "Task failed: " ++ m ++ "\n\nFull response:\n" ++ p
  | .downloadFailedAfterDone m z =>
    "Conversion completed but download failed: " ++ m ++ "\n\nDownload URL: " ++ z
  | .timedOut mw b last =>
    "Timeout after " ++ toString mw ++ " seconds. Task is still processing.\n\nBatch ID: " ++
      b ++ "\nLast status:\n" ++ jsonDumpsOpt last ++
      "\n\nUse get_task_status with batch_id to check later."
  | .completed b out z =>
    "Conversion completed!\n\nBatch ID: " ++ b ++ "\nSaved to: " ++ out ++
      "\nDownload URL: " ++ z

/-! ## Substring occurrence, used to state what a report string carries -/

def charsLead : List Char → List Char → Bool
  | [], _ => true
  | _ :: _, [] => false
  | a :: as, b :: bs => a == b && charsLead as bs

def charsOccur (needle : List Char) : List Char → Bool
  | [] => charsLead needle []
  | c :: rest => charsLead needle (c :: rest) || charsOccur needle rest

/-- `needle in hay` on strings. -/
def strOccurs (needle hay : String) : Bool := charsOccur needle.data hay.data

theorem charsLead_append (l m : List Char) : charsLead l (l ++ m) = true := by
  induction l with
  | nil => rfl
  | cons a as ih => simp [charsLead, ih]

theorem charsOccur_of_lead {n h : List Char} (hl : charsLead n h = true) :
    charsOccur n h = true := by
  cases h with
  | nil => simpa [charsOccur] using hl
  | cons c rest => simp [charsOccur, hl]

theorem charsOccur_append_left (t : List Char) {n h : List Char}
    (ho : charsOccur n h = true) : charsOccur n (t ++ h) = true := by
  induction t with
  | nil => simpa using ho
  | cons c cs ih => simp [charsOccur, ih]

theorem strOccurs_inner (a s b : String) : strOccurs s (a ++ s ++ b) = true := by
  unfold strOccurs
  have hd : (a ++ s ++ b).data = a.data ++ (s.data ++ b.data) := by
    simp [String.data_append, List.append_assoc]
  rw [hd]
  exact charsOccur_append_left a.data
    (charsOccur_of_lead (charsLead_append s.data b.data))

theorem strOccurs_suffix_self (a s : String) : strOccurs s (a ++ s) = true := by
  unfold strOccurs
  have hd : (a ++ s).data = a.data ++ s.data := by simp [String.data_append]
  rw [hd]
  have hlead : charsLead s.data s.data = true := by
    have := charsLead_append s.data []
    simpa using this
  exact charsOccur_append_left a.data (charsOccur_of_lead hlead)

/-! ## Poll-loop lemmas -/

/-- States on which the polling loop keeps waiting: an empty
`extract_result` or a state other than `done`/`failed`. -/
def pollContinues : PollResp → Bool
  | .noExtract _ => true
  | .running _ => true
  | _ => false

theorem pollLoop_guard_false {polls : Nat → PollResp} {mw iv j : Nat}
    {last : Option String} (h : ¬ j * iv < mw) (fuel : Nat) :
    pollLoop polls mw iv fuel j last = .timedOut last := by
  cases fuel with
  | zero => rfl
  | succ n => simp [pollLoop, h]

theorem pollLoop_timedOut {polls : Nat → PollResp} {mw iv : Nat}
    (hc : ∀ n, pollContinues (polls n) = true) :
    ∀ fuel j last, ∃ l2, pollLoop polls mw iv fuel j last = .timedOut l2 := by
  intro fuel
  induction fuel with
  | zero => exact fun j last => ⟨last, rfl⟩
  | succ n ih =>
    intro j last
    by_cases h : j * iv < mw
    · have hcj := hc j
      cases hp : polls j with
      | transportErr raw => rw [hp] at hcj; simp [pollContinues] at hcj
      | done z p => rw [hp] at hcj; simp [pollContinues] at hcj
      | failed e p => rw [hp] at hcj; simp [pollContinues] at hcj
      | noExtract p =>
        obtain ⟨l2, hl⟩ := ih (j + 1) (some p)
        exact ⟨l2, by simp only [pollLoop, if_pos h, hp]; exact hl⟩
      | running p =>
        obtain ⟨l2, hl⟩ := ih (j + 1) (some p)
        exact ⟨l2, by simp only [pollLoop, if_pos h, hp]; exact hl⟩
    · exact ⟨last, pollLoop_guard_false h _⟩

theorem pollFrom_timedOut {polls : Nat → PollResp} {mw iv : Nat}
    (hc : ∀ n, pollContinues (polls n) = true) :
    ∃ l2, pollFrom polls mw iv = .timedOut l2 :=
  pollLoop_timedOut hc (mw + 1) 0 none

theorem pollLoop_timedOut_running {polls : Nat → PollResp} {pl : Nat → String}
    {mw iv : Nat} (hc : ∀ n, polls n = .running (pl n)) :
    ∀ fuel j last, mw ≤ (j + fuel) * iv → j * iv < mw →
      ∃ k, pollLoop polls mw iv fuel j last = .timedOut (some (pl k)) := by
  intro fuel
  induction fuel with
  | zero => intro j last hcond hj; rw [Nat.add_zero] at hcond; omega
  | succ n ih =>
    intro j last hcond hj
    have hp := hc j
    by_cases h2 : (j + 1) * iv < mw
    · obtain ⟨k, hk⟩ := ih (j + 1) (some (pl j))
        (by have e : (j + 1 + n) * iv = (j + (n + 1)) * iv := by ring
            rw [e]; exact hcond) h2
      exact ⟨k, by simp only [pollLoop, if_pos hj, hp]; exact hk⟩
    · refine ⟨j, ?_⟩
      simp only [pollLoop, if_pos hj, hp]
      exact pollLoop_guard_false h2 n

theorem pollFrom_timedOut_running {polls : Nat → PollResp} {pl : Nat → String}
    {mw iv : Nat} (hc : ∀ n, polls n = .running (pl n))
    (hmw : 0 < mw) (hiv : 0 < iv) :
    ∃ k, pollFrom polls mw iv = .timedOut (some (pl k)) := by
  apply pollLoop_timedOut_running hc (mw + 1) 0 none
  · rw [Nat.zero_add]
    have : mw + 1 ≤ (mw + 1) * iv := Nat.le_mul_of_pos_right _ hiv
    omega
  · omega

/-! ## Chunk-loop prefix lemmas -/

theorem processChunk_inr {mw iv : Nat} {st sf : String} {total idx : Nat}
    {e : ChunkEnv} {out : String}
    (h : processChunk mw iv st sf total idx e = .inr out) :
    out = chunkOutName st idx sf := by
  unfold processChunk at h
  repeat' split at h
  all_goals simp_all

theorem runChunksAux_front (mw iv : Nat) (st sf : String) (total : Nat) :
    ∀ (pre l : List ChunkEnv) (idx : Nat) (written : List String),
      (∀ k, k < pre.length →
        (processChunk mw iv st sf total (idx + k)
            (pre.getD k defaultChunkEnv)).isRight = true) →
      runChunksAux mw iv st sf total (pre ++ l) idx written
        = runChunksAux mw iv st sf total l (idx + pre.length)
            (written ++ (List.range pre.length).map
              (fun k => chunkOutName st (idx + k) sf)) := by
  intro pre
  induction pre with
  | nil => intro l idx written hpre; simp
  | cons e pre' ih =>
    intro l idx written hpre
    have h0 := hpre 0 (by simp)
    simp only [List.getD_cons_zero, Nat.add_zero] at h0
    obtain ⟨out, hout⟩ : ∃ out, processChunk mw iv st sf total idx e = .inr out := by
      cases hpc : processChunk mw iv st sf total idx e with
      | inl o => rw [hpc] at h0; simp at h0
      | inr o => exact ⟨o, rfl⟩
    have hname : out = chunkOutName st idx sf := processChunk_inr hout
    have hpre' : ∀ k, k < pre'.length →
        (processChunk mw iv st sf total (idx + 1 + k)
          (pre'.getD k defaultChunkEnv)).isRight = true := by
      intro k hk
      have hh := hpre (k + 1) (by simpa using Nat.succ_lt_succ hk)
      simp only [List.getD_cons_succ] at hh
      have e2 : idx + (k + 1) = idx + 1 + k := by omega
      rw [e2] at hh
      exact hh
    have hstep : runChunksAux mw iv st sf total ((e :: pre') ++ l) idx written
        = runChunksAux mw iv st sf total (pre' ++ l) (idx + 1) (written ++ [out]) := by
      simp only [List.cons_append, runChunksAux, hout]
      rfl
    rw [hstep, ih l (idx + 1) (written ++ [out]) hpre']
    simp only [List.length_cons]
    have eidx : idx + 1 + pre'.length = idx + (pre'.length + 1) := by omega
    rw [eidx]
    have harg : (written ++ [out]) ++ (List.range pre'.length).map
          (fun k => chunkOutName st (idx + 1 + k) sf)
        = written ++ (List.range (pre'.length + 1)).map
          (fun k => chunkOutName st (idx + k) sf) := by
      have htail : (List.range pre'.length).map
            (fun k => chunkOutName st (idx + 1 + k) sf)
          = (List.range pre'.length).map
            ((fun k => chunkOutName st (idx + k) sf) ∘ Nat.succ) := by
        apply List.map_congr_left
        intro k _
        simp only [Function.comp_apply]
        congr 1
        omega
      rw [List.range_succ_eq_map, List.map_cons, List.map_map, List.append_assoc,
        List.singleton_append, ← htail, hname]
      simp
    rw [harg]

theorem strOccurs_self_lead (s c : String) : strOccurs s (s ++ c) = true := by
  unfold strOccurs
  rw [String.data_append]
  exact charsOccur_of_lead (charsLead_append s.data c.data)

/-! ## Page-range-loop prefix lemmas -/

theorem processRange_inr {mw iv : Nat} {st sf pr : String}
    {e : ChunkEnv} {out : String}
    (h : processRange mw iv st sf pr e = .inr out) :
    out = rangeOutName st pr sf := by
  unfold processRange at h
  repeat' split at h
  all_goals simp_all

theorem runRangesAux_front (mw iv : Nat) (st sf : String) :
    ∀ (pre l : List (String × ChunkEnv)) (written : List String),
      (∀ k, k < pre.length →
        (processRange mw iv st sf (pre.getD k defaultRangeUnit).1
            (pre.getD k defaultRangeUnit).2).isRight = true) →
      runRangesAux mw iv st sf (pre ++ l) written
        = runRangesAux mw iv st sf l
            (written ++ pre.map (fun u => rangeOutName st u.1 sf)) := by
  intro pre
  induction pre with
  | nil => intro l written hpre; simp
  | cons u pre' ih =>
    obtain ⟨pr, e⟩ := u
    intro l written hpre
    have h0 := hpre 0 (by simp)
    simp only [List.getD_cons_zero] at h0
    obtain ⟨out, hout⟩ : ∃ out, processRange mw iv st sf pr e = .inr out := by
      cases hpc : processRange mw iv st sf pr e with
      | inl o => rw [hpc] at h0; simp at h0
      | inr o => exact ⟨o, rfl⟩
    have hname : out = rangeOutName st pr sf := processRange_inr hout
    have hpre' : ∀ k, k < pre'.length →
        (processRange mw iv st sf (pre'.getD k defaultRangeUnit).1
          (pre'.getD k defaultRangeUnit).2).isRight = true := by
      intro k hk
      have hh := hpre (k + 1) (by simpa using Nat.succ_lt_succ hk)
      simpa only [List.getD_cons_succ] using hh
    have hstep : runRangesAux mw iv st sf (((pr, e) :: pre') ++ l) written
        = runRangesAux mw iv st sf (pre' ++ l) (written ++ [out]) := by
      simp only [List.cons_append, runRangesAux, hout]
      rfl
    rw [hstep, ih l (written ++ [out]) hpre']
    rw [List.map_cons, List.append_assoc, List.singleton_append, hname]

/-! ## Claim C3 -/

/-- Claim C3: in the chunked and page-range flows of `convert_to_markdown`,
when the unit after a run of fully successful units fails (external state
`failed`), the conversion returns the failure report for exactly that unit
— naming the unit (chunk index / page-range expression) and the external
error message — while the artifact files already downloaded for the
successful sibling units remain written to disk (second component of the
run result). -/
theorem multi_unit_failure_isolation
    (mw iv : Nat) (st sf : String)
    (pre rest : List ChunkEnv) (bad : ChunkEnv) (bid msg pld : String)
    (hpre : ∀ k, k < pre.length →
      (processChunk mw iv st sf (pre ++ bad :: rest).length (1 + k)
        (pre.getD k defaultChunkEnv)).isRight = true)
    (hup : bad.upload = .success bid)
    (hpoll : pollFrom bad.polls mw iv = .failedState msg pld)
    (preR restR : List (String × ChunkEnv)) (badR : ChunkEnv)
    (prBad bidR msgR pldR : String)
    (hpreR : ∀ k, k < preR.length →
      (processRange mw iv st sf (preR.getD k defaultRangeUnit).1
        (preR.getD k defaultRangeUnit).2).isRight = true)
    (hupR : badR.upload = .success bidR)
    (hpollR : pollFrom badR.polls mw iv = .failedState msgR pldR) :
    (runChunkedConversion (pre ++ bad :: rest) mw iv st sf
        = (.chunkFailed (1 + pre.length) msg,
           (List.range pre.length).map (fun k => chunkOutName st (1 + k) sf))
      ∧ strOccurs ("Chunk " ++ toString (1 + pre.length))
          (renderChunkedOutcome (.chunkFailed (1 + pre.length) msg)) = true
      ∧ strOccurs msg
          (renderChunkedOutcome (.chunkFailed (1 + pre.length) msg)) = true)
    ∧ (runRangeConversion (preR ++ (prBad, badR) :: restR) mw iv st sf
        = (.rangeFailed prBad msgR, preR.map (fun u => rangeOutName st u.1 sf))
      ∧ strOccurs ("Page range " ++ prBad)
          (renderRangeOutcome (.rangeFailed prBad msgR)) = true
      ∧ strOccurs msgR
          (renderRangeOutcome (.rangeFailed prBad msgR)) = true) := by
  have hbadproc : processChunk mw iv st sf (pre ++ bad :: rest).length
      (1 + pre.length) bad = .inl (.chunkFailed (1 + pre.length) msg) := by
    unfold processChunk
    rw [hup, hpoll]
  have hbadprocR : processRange mw iv st sf prBad badR
      = .inl (.rangeFailed prBad msgR) := by
    unfold processRange
    rw [hupR, hpollR]
  have hrender : renderChunkedOutcome (.chunkFailed (1 + pre.length) msg)
      = "Chunk " ++ toString (1 + pre.length) ++ " failed: " ++ msg := rfl
  have hrenderR : renderRangeOutcome (.rangeFailed prBad msgR)
      = "Page range " ++ prBad ++ " failed: " ++ msgR := rfl
  refine ⟨⟨?_, ?_, ?_⟩, ⟨?_, ?_, ?_⟩⟩
  · unfold runChunkedConversion
    rw [runChunksAux_front mw iv st sf (pre ++ bad :: rest).length pre
      (bad :: rest) 1 [] hpre]
    simp only [runChunksAux, hbadproc, List.nil_append]
  · rw [hrender, String.append_assoc]
    exact strOccurs_self_lead _ _
  · rw [hrender]
    exact strOccurs_suffix_self _ _
  · unfold runRangeConversion
    rw [runRangesAux_front mw iv st sf preR ((prBad, badR) :: restR) [] hpreR]
    simp only [runRangesAux, hbadprocR, List.nil_append]
  · rw [hrenderR, String.append_assoc]
    exact strOccurs_self_lead _ _
  · rw [hrenderR]
    exact strOccurs_suffix_self _ _

/-- Scripted unit whose job completes and downloads successfully. -/
def envDoneW (b z p : String) : ChunkEnv := ⟨.success b, fun _ => .done z p, .okDl⟩

/-- Scripted unit whose job reaches external state `failed`. -/
def envFailW (b m p : String) : ChunkEnv :=
  ⟨.success b, fun _ => .failed (some m) p, .okDl⟩

/-- Scripted unit that stays non-terminal (pending) forever. -/
def envRunW (b p : String) : ChunkEnv := ⟨.success b, fun _ => .running p, .okDl⟩

/-- Witness for C3: chunk 1 succeeds (artifact `out_part1.zip` written),
chunk 2 fails with message `boom`; the run reports chunk 2's failure and
keeps chunk 1's artifact.  Likewise for page ranges `0-599` / `600-1199`. -/
theorem multi_unit_failure_isolation_witness :
    (runChunkedConversion [envDoneW "B1" "Z1" "P1", envFailW "B2" "boom" "P2"]
        10 10 "out" ".zip"
        = (.chunkFailed 2 "boom", ["out_part1.zip"])
      ∧ strOccurs ("Chunk " ++ toString 2)
          (renderChunkedOutcome (.chunkFailed 2 "boom")) = true
      ∧ strOccurs "boom" (renderChunkedOutcome (.chunkFailed 2 "boom")) = true)
    ∧ (runRangeConversion
        [("0-599", envDoneW "B3" "Z3" "P3"), ("600-1199", envFailW "B4" "oops" "P4")]
        10 10 "out" ".zip"
        = (.rangeFailed "600-1199" "oops", ["out_pages0-599.zip"])
      ∧ strOccurs ("Page range " ++ "600-1199")
          (renderRangeOutcome (.rangeFailed "600-1199" "oops")) = true
      ∧ strOccurs "oops" (renderRangeOutcome (.rangeFailed "600-1199" "oops")) = true) := by
  have h := multi_unit_failure_isolation 10 10 "out" ".zip"
    [envDoneW "B1" "Z1" "P1"] [] (envFailW "B2" "boom" "P2") "B2" "boom" "P2"
    (by decide) rfl rfl
    [("0-599", envDoneW "B3" "Z3" "P3")] [] (envFailW "B4" "oops" "P4")
    "600-1199" "B4" "oops" "P4"
    (by decide) rfl rfl
  exact h

/-! ## Claim C4 -/

/-- Claim C4 counterexample: a chunked conversion whose single chunk stays
pending for the whole budget.  The outcome is the chunk-timeout report; the
last known Job Status was the payload `PENDINGSNAP77`, yet the report
carries only the Job Handle (`BATCH42`) and not that status snapshot — so
the claim that every timed-out unit's outcome carries both is false. -/
theorem convert_chunk_timeout_counterexample :
    (runChunkedConversion [envRunW "BATCH42" "PENDINGSNAP77"] 10 10 "out" ".zip").1
        = .chunkTimeout 1 1 "BATCH42"
    ∧ pollFrom (envRunW "BATCH42" "PENDINGSNAP77").polls 10 10
        = .timedOut (some "PENDINGSNAP77")
    ∧ strOccurs "BATCH42"
        (renderChunkedOutcome (.chunkTimeout 1 1 "BATCH42")) = true
    ∧ strOccurs "PENDINGSNAP77"
        (renderChunkedOutcome (.chunkTimeout 1 1 "BATCH42")) = false := by
  decide

theorem charsOccur_nil_needle : ∀ t : List Char, charsOccur [] t = true
  | [] => rfl
  | _ :: rest => by simp [charsOccur, charsLead]

theorem charsLead_extend : ∀ {n l : List Char} (t : List Char),
    charsLead n l = true → charsLead n (l ++ t) = true := by
  intro n
  induction n with
  | nil => intro l t _; rfl
  | cons a as ih =>
    intro l t hl
    cases l with
    | nil => simp [charsLead] at hl
    | cons b bs =>
      simp only [charsLead, Bool.and_eq_true, beq_iff_eq] at hl
      simp only [List.cons_append, charsLead, Bool.and_eq_true, beq_iff_eq]
      exact ⟨hl.1, ih t hl.2⟩

theorem charsOccur_extend : ∀ (h : List Char) {n : List Char} (t : List Char),
    charsOccur n h = true → charsOccur n (h ++ t) = true := by
  intro h
  induction h with
  | nil =>
    intro n t ho
    cases n with
    | nil => exact charsOccur_nil_needle t
    | cons a as => simp [charsOccur, charsLead] at ho
  | cons c rest ih =>
    intro n t ho
    simp only [charsOccur, Bool.or_eq_true] at ho
    simp only [List.cons_append, charsOccur, Bool.or_eq_true]
    rcases ho with ho | ho
    · left
      have := charsLead_extend t ho
      simpa using this
    · right
      exact ih t ho

theorem strOccurs_append_right (t : String) {s h : String}
    (ho : strOccurs s h = true) : strOccurs s (h ++ t) = true := by
  unfold strOccurs at ho ⊢
  rw [String.data_append]
  exact charsOccur_extend h.data t.data ho

/-- Claim C4 (amended): a unit whose polling budget is exhausted while the
external state is still non-terminal yields a timeout outcome — not a
failure — that carries the unit's Job Handle (batch_id); the last known Job
Status snapshot is additionally carried only by the single-unit flow's
timeout report, not by the chunked or page-range flows' reports.  Stated
for a timed-out unit in an arbitrary position after successful siblings. -/
theorem convert_timeout_carries_handle
    (mw iv : Nat) (hiv : 0 < iv) (hmw : 0 < mw) (st sf outPath : String)
    (pre rest : List ChunkEnv) (bad : ChunkEnv) (bid : String)
    (hpre : ∀ k, k < pre.length →
      (processChunk mw iv st sf (pre ++ bad :: rest).length (1 + k)
        (pre.getD k defaultChunkEnv)).isRight = true)
    (hup : bad.upload = .success bid)
    (hcont : ∀ n, pollContinues (bad.polls n) = true)
    (preR restR : List (String × ChunkEnv)) (badR : ChunkEnv)
    (prBad bidR : String)
    (hpreR : ∀ k, k < preR.length →
      (processRange mw iv st sf (preR.getD k defaultRangeUnit).1
        (preR.getD k defaultRangeUnit).2).isRight = true)
    (hupR : badR.upload = .success bidR)
    (hcontR : ∀ n, pollContinues (badR.polls n) = true)
    (eS : ChunkEnv) (bidS : String) (pl : Nat → String)
    (hupS : eS.upload = .success bidS)
    (hcontS : ∀ n, eS.polls n = .running (pl n)) :
    (runChunkedConversion (pre ++ bad :: rest) mw iv st sf
        = (.chunkTimeout (1 + pre.length) (pre ++ bad :: rest).length bid,
           (List.range pre.length).map (fun k => chunkOutName st (1 + k) sf))
      ∧ strOccurs bid (renderChunkedOutcome
          (.chunkTimeout (1 + pre.length) (pre ++ bad :: rest).length bid)) = true)
    ∧ (runRangeConversion (preR ++ (prBad, badR) :: restR) mw iv st sf
        = (.rangeTimeout prBad bidR, preR.map (fun u => rangeOutName st u.1 sf))
      ∧ strOccurs bidR (renderRangeOutcome (.rangeTimeout prBad bidR)) = true)
    ∧ (∃ k, runSingleConversion eS mw iv outPath
          = .timedOut mw bidS (some (pl k))
        ∧ strOccurs bidS (renderSingleOutcome
            (.timedOut mw bidS (some (pl k)))) = true
        ∧ strOccurs (pl k) (renderSingleOutcome
            (.timedOut mw bidS (some (pl k)))) = true) := by
  obtain ⟨l2, hl2⟩ := @pollFrom_timedOut bad.polls mw iv hcont
  obtain ⟨l3, hl3⟩ := @pollFrom_timedOut badR.polls mw iv hcontR
  obtain ⟨k, hk⟩ := pollFrom_timedOut_running hcontS hmw hiv
  have hbadproc : processChunk mw iv st sf (pre ++ bad :: rest).length
      (1 + pre.length) bad
      = .inl (.chunkTimeout (1 + pre.length) (pre ++ bad :: rest).length bid) := by
    unfold processChunk
    rw [hup, hl2]
  have hbadprocR : processRange mw iv st sf prBad badR
      = .inl (.rangeTimeout prBad bidR) := by
    unfold processRange
    rw [hupR, hl3]
  refine ⟨⟨?_, ?_⟩, ⟨?_, ?_⟩, ⟨k, ?_, ?_, ?_⟩⟩
  · unfold runChunkedConversion
    rw [runChunksAux_front mw iv st sf (pre ++ bad :: rest).length pre
      (bad :: rest) 1 [] hpre]
    simp only [runChunksAux, hbadproc, List.nil_append]
  · show strOccurs bid
      ("Timeout waiting for chunk " ++ toString (1 + pre.length) ++ "/" ++
        toString (pre ++ bad :: rest).length ++ ".\nBatch ID: " ++ bid ++
        "\nUse get_task_status to check later.") = true
    exact strOccurs_append_right _ (strOccurs_suffix_self _ _)
  · unfold runRangeConversion
    rw [runRangesAux_front mw iv st sf preR ((prBad, badR) :: restR) [] hpreR]
    simp only [runRangesAux, hbadprocR, List.nil_append]
  · show strOccurs bidR
      ("Timeout waiting for page range " ++ prBad ++ ".\nBatch ID: " ++ bidR ++
        "\nUse get_task_status to check later.") = true
    exact strOccurs_append_right _ (strOccurs_suffix_self _ _)
  · unfold runSingleConversion
    rw [hupS, hk]
  · show strOccurs bidS
      ("Timeout after " ++ toString mw ++
        " seconds. Task is still processing.\n\nBatch ID: " ++ bidS ++
        "\nLast status:\n" ++ jsonDumpsOpt (some (pl k)) ++
        "\n\nUse get_task_status with batch_id to check later.") = true
    exact strOccurs_append_right _ (strOccurs_append_right _
      (strOccurs_append_right _ (strOccurs_suffix_self _ _)))
  · show strOccurs (pl k)
      ("Timeout after " ++ toString mw ++
        " seconds. Task is still processing.\n\nBatch ID: " ++ bidS ++
        "\nLast status:\n" ++ jsonDumpsOpt (some (pl k)) ++
        "\n\nUse get_task_status with batch_id to check later.") = true
    have hj : jsonDumpsOpt (some (pl k)) = pl k := rfl
    rw [hj]
    exact strOccurs_append_right _ (strOccurs_suffix_self _ _)

/-- Witness for C4 (amended) with concrete scripted units: chunk 2 of 2,
page range `600-1199`, and a single-unit run all time out while pending;
each report carries its batch id, and the single-unit report also carries
the last status payload. -/
theorem convert_timeout_carries_handle_witness :
    (runChunkedConversion [envDoneW "B1" "Z1" "P1", envRunW "BT" "PS"]
        10 10 "out" ".zip"
        = (.chunkTimeout 2 2 "BT", ["out_part1.zip"])
      ∧ strOccurs "BT" (renderChunkedOutcome (.chunkTimeout 2 2 "BT")) = true)
    ∧ (runRangeConversion
        [("0-599", envDoneW "B3" "Z3" "P3"), ("600-1199", envRunW "BR" "PR")]
        10 10 "out" ".zip"
        = (.rangeTimeout "600-1199" "BR", ["out_pages0-599.zip"])
      ∧ strOccurs "BR" (renderRangeOutcome (.rangeTimeout "600-1199" "BR")) = true)
    ∧ (∃ _k : Nat, runSingleConversion (envRunW "BS" "PSS") 10 10 "res.zip"
          = .timedOut 10 "BS" (some "PSS")
        ∧ strOccurs "BS" (renderSingleOutcome
            (.timedOut 10 "BS" (some "PSS"))) = true
        ∧ strOccurs "PSS" (renderSingleOutcome
            (.timedOut 10 "BS" (some "PSS"))) = true) := by
  have h := convert_timeout_carries_handle 10 10 (by decide) (by decide)
    "out" ".zip" "res.zip"
    [envDoneW "B1" "Z1" "P1"] [] (envRunW "BT" "PS") "BT"
    (by decide) rfl (fun _ => rfl)
    [("0-599", envDoneW "B3" "Z3" "P3")] [] (envRunW "BR" "PR")
    "600-1199" "BR"
    (by decide) rfl (fun _ => rfl)
    (envRunW "BS" "PSS") "BS" (fun _ => "PSS") rfl (fun _ => rfl)
  exact h
